import Mathlib

/-!
Verification of the inventory transformation pipeline of
`vsphere_inventory.py` (vSphere Ansible Inventory).

The Python code is shallowly embedded:

* Python values that can appear as record attributes or filter
  predicates are modelled by `PyVal` (strings, booleans, None, lists).
  Python `==` on these values coincides with structural equality of
  `PyVal` (a string never equals a boolean, `None`, or a list).
* A normalized VM record (the dict built by `VSphere.append_vm_info`)
  is `VMRec`; its eight fixed keys are the inductive `AttrName`.
* The in-place list mutation of `VSphere.filter_inventory`
  (iteration over `reversed(self.inventory)` combined with
  `self.inventory.remove(d)`) is modelled step for step:
  `eraseFirst` is `list.remove`, `filter_rev_loop` is the reversed
  iterator of CPython, which fetches index `i` only while
  `i < len(list)` and stops otherwise.
* Python dicts are modelled as association lists in insertion order
  (CPython dicts preserve insertion order); keys stay unique because
  entries are only added through `addTo` / `dictSet`.
* The cache layer (`cached_inventory`, `list_and_save`) is modelled
  over an abstract file-system state `FS`; file contents that fail to
  parse are `Option.none`; `FS` carries the file-system consistency
  fact that an existing cache file implies an existing parent
  directory. The write in `list_and_save` mirrors
  `open(cache_path, "w")`: it succeeds only when the cache path is
  truthy and its parent directory exists, and otherwise the uncaught
  exception aborts the run (`CacheErr.openFail`). `str(...)` of a
  Python string containing a quote would need escaping in `pyRepr`;
  no claim evaluates `str` on such a string.
-/

/-- A Python value as used by the inventory pipeline: record attribute
values and filter predicate values. -/
inductive PyVal where
  | str : String → PyVal
  | bool : Bool → PyVal
  | none : PyVal
  | list : List PyVal → PyVal

mutual

/-- Structural boolean equality on `PyVal`; it agrees with Python `==`
on these values (a string never equals a boolean, `None` or a list). -/
def PyVal.beq : PyVal → PyVal → Bool
  | .str a, .str b => a == b
  | .bool a, .bool b => a == b
  | .none, .none => true
  | .list a, .list b => PyVal.beqList a b
  | _, _ => false

/-- Elementwise `PyVal.beq` on lists. -/
def PyVal.beqList : List PyVal → List PyVal → Bool
  | [], [] => true
  | x :: xs, y :: ys => PyVal.beq x y && PyVal.beqList xs ys
  | _, _ => false

end

mutual

theorem PyVal.beq_iff : ∀ a b : PyVal, PyVal.beq a b = true ↔ a = b
  | .str _, .str _ => by simp [PyVal.beq]
  | .str _, .bool _ => by simp [PyVal.beq]
  | .str _, .none => by simp [PyVal.beq]
  | .str _, .list _ => by simp [PyVal.beq]
  | .bool _, .str _ => by simp [PyVal.beq]
  | .bool _, .bool _ => by simp [PyVal.beq]
  | .bool _, .none => by simp [PyVal.beq]
  | .bool _, .list _ => by simp [PyVal.beq]
  | .none, .str _ => by simp [PyVal.beq]
  | .none, .bool _ => by simp [PyVal.beq]
  | .none, .none => by simp [PyVal.beq]
  | .none, .list _ => by simp [PyVal.beq]
  | .list _, .str _ => by simp [PyVal.beq]
  | .list _, .bool _ => by simp [PyVal.beq]
  | .list _, .none => by simp [PyVal.beq]
  | .list a, .list b => by
      simp [PyVal.beq, PyVal.beqList_iff a b]

theorem PyVal.beqList_iff : ∀ a b : List PyVal, PyVal.beqList a b = true ↔ a = b
  | [], [] => by simp [PyVal.beqList]
  | [], _ :: _ => by simp [PyVal.beqList]
  | _ :: _, [] => by simp [PyVal.beqList]
  | x :: xs, y :: ys => by
      simp [PyVal.beqList, PyVal.beq_iff x y, PyVal.beqList_iff xs ys]

end

instance : DecidableEq PyVal := fun a b =>
  decidable_of_iff _ (PyVal.beq_iff a b)

/-- Python truthiness of a `PyVal` (`if name:` and `if d[field]:`). -/
def PyVal.truthy : PyVal → Bool
  | .str s => !s.isEmpty
  | .bool b => b
  | .none => false
  | .list l => !l.isEmpty

mutual

/-- Python `repr` of a `PyVal` (string quoting unescaped). -/
def pyRepr : PyVal → String
  | PyVal.str s => "\x27" ++ s ++ "\x27"
  | PyVal.bool b => if b then "True" else "False"
  | PyVal.none => "None"
  | PyVal.list l => "[" ++ String.intercalate ", " (pyReprList l) ++ "]"

/-- `repr` of each element of a Python list. -/
def pyReprList : List PyVal → List String
  | [] => []
  | v :: vs => pyRepr v :: pyReprList vs

end

/-- Python `str` of a `PyVal`: identity on strings, `repr` otherwise
(this is how `str(d[name])` behaves in `filter_inventory`). -/
def pyStr : PyVal → String
  | PyVal.str s => s
  | v => pyRepr v

/-- The eight keys of the dict built by `append_vm_info`. -/
inductive AttrName where
  | name | guest_id | guest_full_name | net | state
  | instance_uuid | template | ip_address
deriving DecidableEq

/-- One normalized VM record: the dict appended by `append_vm_info`. -/
structure VMRec where
  name : PyVal
  guest_id : PyVal
  guest_full_name : PyVal
  net : PyVal
  state : PyVal
  instance_uuid : PyVal
  template : PyVal
  ip_address : PyVal
deriving DecidableEq

/-- `d[name]`: dict lookup on a VM record. -/
def getAttr (d : VMRec) : AttrName → PyVal
  | .name => d.name
  | .guest_id => d.guest_id
  | .guest_full_name => d.guest_full_name
  | .net => d.net
  | .state => d.state
  | .instance_uuid => d.instance_uuid
  | .template => d.template
  | .ip_address => d.ip_address

/-- One entry of `virtual_machine.config.hardware.device`. -/
structure RawDevice where
  isEthernetCard : Bool
  connected : Bool
  deviceName : String
deriving DecidableEq

/-- The fields of a raw `vim.VirtualMachine` view object read by
`append_vm_info`.  An `Option.none` in a `guest...Attr` field means the
attribute is absent, so the `getattr(..., default)` fallback fires;
`some v` means the attribute is present with value `v` (possibly empty
or `None`). -/
structure RawVM where
  devices : List RawDevice
  guestHostNameAttr : Option PyVal
  displayName : PyVal
  guestGuestIdAttr : Option PyVal
  configGuestIdAttr : Option PyVal
  guestFullNameAttr : Option PyVal
  configGuestFullName : PyVal
  guestIpAddressAttr : Option PyVal
  powerState : PyVal
  configInstanceUuid : PyVal
  configTemplate : Bool
deriving DecidableEq

/-- `VSphere.append_vm_info`: normalize one raw VM and append the
record to the working collection iff the resolved name is truthy. -/
def append_vm_info (inv : List VMRec) (vm : RawVM) : List VMRec :=
  let net := vm.devices.filterMap fun dev =>
    if dev.isEthernetCard && dev.connected then some (PyVal.str dev.deviceName)
    else Option.none
  let name := vm.guestHostNameAttr.getD vm.displayName
  let gid := vm.guestGuestIdAttr.getD (vm.configGuestIdAttr.getD PyVal.none)
  let gfn := vm.guestFullNameAttr.getD vm.configGuestFullName
  let ip := vm.guestIpAddressAttr.getD PyVal.none
  if name.truthy then
    inv ++ [⟨name, gid, gfn, PyVal.list net, vm.powerState,
             vm.configInstanceUuid, PyVal.bool vm.configTemplate, ip⟩]
  else inv

/-- Python `list.remove`: drop the first element equal to `d`
(no-op when absent; the source guards the call with `d in inventory`). -/
def eraseFirst {α : Type} [DecidableEq α] : List α → α → List α
  | [], _ => []
  | x :: xs, d => if x = d then xs else x :: eraseFirst xs d

/-- One `name, value` iteration of the inner loop of
`filter_inventory` for the fetched record `d`: a list predicate is a
membership test, anything else compares `str(d[name])` with the value
under Python equality; removal happens only while `d in inventory`. -/
def filter_kw_step (d : VMRec) (inv : List VMRec) (p : AttrName × PyVal) :
    List VMRec :=
  match p.2 with
  | PyVal.list l =>
      if getAttr d p.1 ∉ l ∧ d ∈ inv then eraseFirst inv d else inv
  | v =>
      if PyVal.str (pyStr (getAttr d p.1)) ≠ v ∧ d ∈ inv then
        eraseFirst inv d
      else inv

/-- The inner `for name, value in kwargs.items()` loop of
`filter_inventory`, run for one fetched record `d`. -/
def filter_step (kw : List (AttrName × PyVal)) (inv : List VMRec) (d : VMRec) :
    List VMRec :=
  kw.foldl (filter_kw_step d) inv

/-- The `for d in reversed(self.inventory)` loop.  The CPython reversed
list iterator holds an index that counts down; it fetches `inv[i]` only
while `i < len(inv)` and raises StopIteration for good otherwise.  The
`Nat` argument is the current index plus one. -/
def filter_rev_loop (kw : List (AttrName × PyVal)) :
    List VMRec → Nat → List VMRec
  | inv, 0 => inv
  | inv, k + 1 =>
      if h : k < inv.length then
        filter_rev_loop kw (filter_step kw inv (inv.get ⟨k, h⟩)) k
      else inv

/-- `VSphere.filter_inventory`: apply all keyword filters by in-place
removal while iterating the collection in reverse. -/
def filter_inventory (kw : List (AttrName × PyVal)) (inv : List VMRec) :
    List VMRec :=
  filter_rev_loop kw inv inv.length

/-- Whether record `d` passes a single predicate: membership for a
list-valued predicate, Python equality of `str(d[name])` with the
predicate value otherwise. -/
def satisfies (d : VMRec) (p : AttrName × PyVal) : Bool :=
  match p.2 with
  | PyVal.list l => decide (getAttr d p.1 ∈ l)
  | v => decide (PyVal.str (pyStr (getAttr d p.1)) = v)

/-- Whether record `d` passes every predicate of `kw`. -/
def satisfiesAll (kw : List (AttrName × PyVal)) (d : VMRec) : Bool :=
  kw.all (satisfies d)

/-- `data[g].append(v)` / `data[g] = [v]` on the grouping dict:
append to the entry of key `g`, adding the key at the end if new. -/
def addTo : List (PyVal × List PyVal) → PyVal → PyVal →
    List (PyVal × List PyVal)
  | [], g, v => [(g, [v])]
  | (k, l) :: rest, g, v =>
      if k = g then (k, l ++ [v]) :: rest else (k, l) :: addTo rest g v

/-- The body of the `for d in self.inventory` loop of
`grouped_inventory` for one record. -/
def groupRecord (group field : AttrName) (data : List (PyVal × List PyVal))
    (d : VMRec) : List (PyVal × List PyVal) :=
  if (getAttr d field).truthy then
    match getAttr d group with
    | PyVal.list gs => gs.foldl (fun acc g => addTo acc g (getAttr d field)) data
    | gv => addTo data gv (getAttr d field)
  else data

/-- `VSphere.grouped_inventory`: bucket the collection by the `group`
attribute, listing the `field` attribute. -/
def grouped_inventory (inv : List VMRec) (group field : AttrName) :
    List (PyVal × List PyVal) :=
  inv.foldl (groupRecord group field) []

/-- A value of the output document: either the list of field values of a group
values, or the fixed meta object mapping hostvars to the empty dict. -/
inductive Out where
  | hosts : List PyVal → Out
  | meta : Out
deriving DecidableEq

/-- Python dict lookup on an association list. -/
def alookup {β : Type} : List (PyVal × β) → PyVal → Option β
  | [], _ => Option.none
  | (k, v) :: rest, g => if k = g then some v else alookup rest g

/-- `output.update(single key)`: replace the value in place if the key
exists (keeping its position), else append the pair. -/
def dictSet : List (PyVal × Out) → PyVal → Out → List (PyVal × Out)
  | [], k, v => [(k, v)]
  | (k0, v0) :: rest, k, v =>
      if k0 = k then (k0, v) :: rest else (k0, v0) :: dictSet rest k v

/-- `VSphere.list_inventory` minus the session fetch: normalize every
raw VM, filter, group by net listing name, then force the `_meta` key. -/
def list_inventory (raw : List RawVM) (kw : List (AttrName × PyVal)) :
    List (PyVal × Out) :=
  let inv := raw.foldl append_vm_info []
  let inv2 := filter_inventory kw inv
  let g := grouped_inventory inv2 AttrName.net AttrName.name
  dictSet (g.map fun p => (p.1, Out.hosts p.2)) (PyVal.str "_meta") Out.meta

/-- The on-disk cache file: its mtime and its parsed content
(`Option.none` models a malformed or truncated file). -/
structure CacheFile where
  mtime : Int
  content : Option (List (PyVal × Out))
deriving DecidableEq

/-- The file-system state seen by `cached_inventory`: the cache file
(if any) and whether the parent directory of the cache path exists.
`wf` is the file-system consistency fact that a file can only exist
inside an existing directory: a state with a cache file but no parent
directory is not a reachable state of any real file system. -/
structure FS where
  cache : Option CacheFile
  parentExists : Bool
  wf : cache.isSome = true → parentExists = true

/-- Outcome of the `os.makedirs` call in the stale/missing branch. -/
inductive MkdirOutcome where
  | ok | eexist | eacces | otherErr
deriving DecidableEq

/-- How a run of `cached_inventory` can fail: `exit(1)` on EACCES from
`makedirs`, an uncaught OSError from `makedirs`, the re-raised OSError
when the cache path is empty, and the uncaught exception from
`open(cache_path, "w")` in `list_and_save` when the path is falsy or
its parent directory is missing. -/
inductive CacheErr where
  | exitEacces | raisedOther | raisedNoPath | openFail
deriving DecidableEq

/-- A successful run of `cached_inventory`: the returned document, the
file system afterwards, whether the fetch pipeline (`list_inventory`)
ran, and whether `os.makedirs` was called. -/
structure RunResult where
  data : List (PyVal × Out)
  fs : FS
  fetched : Bool
  mkdirCalled : Bool

/-- `VSphere.list_and_save`: run the fetch pipeline, then overwrite the
cache file with the result (the mtime of the file becomes `now`).
`open(cache_path, "w")` succeeds only when the path is truthy and its
parent directory exists; otherwise the exception it raises escapes
`list_and_save` uncaught.  The fetch runs before the open either way. -/
def list_and_save (now : Int) (raw : List RawVM) (kw : List (AttrName × PyVal))
    (cachePathTruthy : Bool) (fs : FS) :
    Except CacheErr (List (PyVal × Out) × FS) :=
  let d := list_inventory raw kw
  if cachePathTruthy && fs.parentExists then
    Except.ok (d, ⟨some ⟨now, some d⟩, true, fun _ => rfl⟩)
  else Except.error CacheErr.openFail

/-- A call of `list_and_save` whose successful result becomes the run
result (fetch happened); a write failure propagates uncaught. -/
def save_run (now : Int) (raw : List RawVM) (kw : List (AttrName × PyVal))
    (cachePathTruthy : Bool) (fs : FS) (mkdirCalled : Bool) :
    Except CacheErr RunResult :=
  match list_and_save now raw kw cachePathTruthy fs with
  | Except.ok p => Except.ok ⟨p.1, p.2, true, mkdirCalled⟩
  | Except.error e => Except.error e

/-- The stale/missing-cache branch of `cached_inventory`: ensure the
parent directory exists (tolerating the EEXIST race, exiting on EACCES,
re-raising anything else, and re-raising when the cache path is empty),
then fetch and persist. -/
def stale_refresh (now : Int) (raw : List RawVM) (kw : List (AttrName × PyVal))
    (cachePathTruthy : Bool) (mkdir : MkdirOutcome) (fs : FS) :
    Except CacheErr RunResult :=
  if cachePathTruthy && fs.parentExists then
    save_run now raw kw cachePathTruthy fs false
  else
    if cachePathTruthy then
      match mkdir with
      | MkdirOutcome.ok =>
          save_run now raw kw cachePathTruthy ⟨fs.cache, true, fun _ => rfl⟩ true
      | MkdirOutcome.eexist =>
          save_run now raw kw cachePathTruthy ⟨fs.cache, true, fun _ => rfl⟩ true
      | MkdirOutcome.eacces => Except.error CacheErr.exitEacces
      | MkdirOutcome.otherErr => Except.error CacheErr.raisedOther
    else Except.error CacheErr.raisedNoPath

/-- `VSphere.cached_inventory`: forced refresh, fresh-cache hit (with
parse-failure fallback), or stale/missing-cache refresh.
`os.path.isfile(cache_path)` is true iff the path is truthy and the
file exists; the freshness test is `time() - st_mtime < cache_ttl`. -/
def cached_inventory (now ttl : Int) (raw : List RawVM)
    (kw : List (AttrName × PyVal)) (cachePathTruthy : Bool)
    (mkdir : MkdirOutcome) (refresh : Bool) (fs : FS) :
    Except CacheErr RunResult :=
  if refresh then
    save_run now raw kw cachePathTruthy fs false
  else
    match fs.cache with
    | some cf =>
        if cachePathTruthy && decide (now - cf.mtime < ttl) then
          match cf.content with
          | some doc => Except.ok ⟨doc, fs, false, false⟩
          | Option.none => save_run now raw kw cachePathTruthy fs false
        else stale_refresh now raw kw cachePathTruthy mkdir fs
    | Option.none => stale_refresh now raw kw cachePathTruthy mkdir fs

/-- Freshness condition of the cache state machine: the cache path is
truthy, the file exists, and its age is strictly below the TTL. -/
def cacheFresh (now ttl : Int) (cachePathTruthy : Bool) (fs : FS) : Bool :=
  cachePathTruthy &&
    match fs.cache with
    | some cf => decide (now - cf.mtime < ttl)
    | Option.none => false

/-- The group keys a record contributes to: nothing when its field
value is falsy, every element of a list-valued group attribute, and the
single scalar value otherwise. -/
def contribKeys (group field : AttrName) (d : VMRec) : List PyVal :=
  if (getAttr d field).truthy then
    match getAttr d group with
    | PyVal.list gs => gs
    | gv => [gv]
  else []

/-- The field values one record contributes under group key `k`
(one copy per occurrence of `k` among its group keys). -/
def recContrib (group field : AttrName) (d : VMRec) (k : PyVal) : List PyVal :=
  ((contribKeys group field d).filter fun g => decide (g = k)).map
    fun _ => getAttr d field

/-- The field values a collection contributes under group key `k`,
in record order. -/
def contribs (group field : AttrName) : List VMRec → PyVal → List PyVal
  | [], _ => []
  | d :: rest, k => recContrib group field d k ++ contribs group field rest k

/-- Append a batch of values under an optional existing group list:
no batch leaves the entry untouched, a batch creates or extends it. -/
def optApp : Option (List PyVal) → List PyVal → Option (List PyVal)
  | o, [] => o
  | Option.none, l => some l
  | some m, l => some (m ++ l)

/-- Record a group key in first-encounter order. -/
def insertKey (ks : List PyVal) (g : PyVal) : List PyVal :=
  if g ∈ ks then ks else ks ++ [g]

/-- The keys of an association-list dict, in insertion order. -/
def keysOf {β : Type} (data : List (PyVal × β)) : List PyVal :=
  data.map Prod.fst

/-- All group keys encountered over a collection, in encounter order
(with repetitions). -/
def allGroupKeys (group field : AttrName) : List VMRec → List PyVal
  | [] => []
  | d :: rest => contribKeys group field d ++ allGroupKeys group field rest

/-- The name `append_vm_info` gives a record according to the amended
reading of the normalizer contract: the guest hostname attribute when
present (whatever its value), else the display name. -/
def resolvedName (vm : RawVM) : PyVal :=
  match vm.guestHostNameAttr with
  | some h => h
  | Option.none => vm.displayName

/-! ### Concrete inputs used by counterexamples and witnesses -/

/-- Raw VM web1: one connected network adapter eth0, guest id
centosGuest, not a template. -/
def rawWeb1 : RawVM :=
  ⟨[⟨true, true, "eth0"⟩], Option.none, PyVal.str "web1",
   some (PyVal.str "centosGuest"), Option.none, Option.none,
   PyVal.str "CentOS 7", Option.none, PyVal.str "poweredOn",
   PyVal.str "uuid-web1", false⟩

/-- Raw VM web2: connected adapters eth0 and eth1, guest id
centos64Guest, not a template. -/
def rawWeb2 : RawVM :=
  ⟨[⟨true, true, "eth0"⟩, ⟨true, true, "eth1"⟩], Option.none,
   PyVal.str "web2", some (PyVal.str "centos64Guest"), Option.none,
   Option.none, PyVal.str "CentOS 6 64bit", Option.none,
   PyVal.str "poweredOn", PyVal.str "uuid-web2", false⟩

/-- Raw VM tmpl1: no adapters, guest id centosGuest, a template. -/
def rawTmpl1 : RawVM :=
  ⟨[], Option.none, PyVal.str "tmpl1", some (PyVal.str "centosGuest"),
   Option.none, Option.none, PyVal.str "CentOS 7", Option.none,
   PyVal.str "poweredOff", PyVal.str "uuid-tmpl1", true⟩

/-- The end-to-end filter with the template predicate as the Python
boolean False, exactly as the claim spells it. -/
def kwScenarioBool : List (AttrName × PyVal) :=
  [(AttrName.guest_id,
    PyVal.list [PyVal.str "centos64Guest", PyVal.str "centosGuest"]),
   (AttrName.template, PyVal.bool false)]

/-- The end-to-end filter with the template predicate as the string
produced by the configuration parser. -/
def kwScenarioStr : List (AttrName × PyVal) :=
  [(AttrName.guest_id,
    PyVal.list [PyVal.str "centos64Guest", PyVal.str "centosGuest"]),
   (AttrName.template, PyVal.str "False")]

/-- The inventory document the end-to-end scenario must yield. -/
def expectedScenarioDoc : List (PyVal × Out) :=
  [(PyVal.str "eth0", Out.hosts [PyVal.str "web1", PyVal.str "web2"]),
   (PyVal.str "eth1", Out.hosts [PyVal.str "web2"]),
   (PyVal.str "_meta", Out.meta)]

/-- A raw VM whose guest hostname attribute is present but empty while
its display name is non-empty. -/
def rawEmptyHostname : RawVM :=
  ⟨[⟨true, true, "eth0"⟩], some (PyVal.str ""), PyVal.str "web1",
   some (PyVal.str "centosGuest"), Option.none, Option.none,
   PyVal.str "CentOS 7", Option.none, PyVal.str "poweredOn",
   PyVal.str "uuid-web1", false⟩

/-- A non-template record failing the guest_id membership predicate. -/
def recDupA : VMRec :=
  ⟨PyVal.str "a", PyVal.str "otherGuest", PyVal.str "Other OS",
   PyVal.list [PyVal.str "eth0"], PyVal.str "poweredOn",
   PyVal.str "uuid-a", PyVal.bool false, PyVal.none⟩

/-- A template record failing both predicates of `kwDup`. -/
def recDupB : VMRec :=
  ⟨PyVal.str "b", PyVal.str "otherGuest", PyVal.str "Other OS",
   PyVal.list [PyVal.str "eth0"], PyVal.str "poweredOn",
   PyVal.str "uuid-b", PyVal.bool true, PyVal.none⟩

/-- Two predicates: guest_id membership and the template string test. -/
def kwDup : List (AttrName × PyVal) :=
  [(AttrName.guest_id, PyVal.list [PyVal.str "centosGuest"]),
   (AttrName.template, PyVal.str "False")]

/-- A non-template record (string-coerced template value False). -/
def recNonTemplate : VMRec :=
  ⟨PyVal.str "web1", PyVal.str "centosGuest", PyVal.str "CentOS 7",
   PyVal.list [PyVal.str "eth0"], PyVal.str "poweredOn",
   PyVal.str "uuid-web1", PyVal.bool false, PyVal.none⟩

/-- A template record (string-coerced template value True). -/
def recTemplate : VMRec :=
  ⟨PyVal.str "tmpl1", PyVal.str "centosGuest", PyVal.str "CentOS 7",
   PyVal.list [], PyVal.str "poweredOff",
   PyVal.str "uuid-tmpl1", PyVal.bool true, PyVal.none⟩

/-- A one-entry inventory document used by the cache witnesses. -/
def docMeta : List (PyVal × Out) := [(PyVal.str "_meta", Out.meta)]

/-- A file-system state with a fresh parseable cache file. -/
def fsFreshParsed : FS := ⟨some ⟨90, some docMeta⟩, true, fun _ => rfl⟩

/-- A file-system state with a fresh but unparseable cache file. -/
def fsFreshCorrupt : FS := ⟨some ⟨90, Option.none⟩, true, fun _ => rfl⟩

/-- A file-system state with no cache file and an existing parent. -/
def fsNoCache : FS := ⟨Option.none, true, fun h => Bool.noConfusion h⟩

/-- A file-system state with a stale corrupt cache file. -/
def fsStaleCorrupt : FS := ⟨some ⟨-50, Option.none⟩, true, fun _ => rfl⟩

/-! ### Lemmas about `eraseFirst` (Python `list.remove`) -/

theorem eraseFirst_sublist {α : Type} [DecidableEq α] (l : List α) (d : α) :
    List.Sublist (eraseFirst l d) l := by
  induction l with
  | nil => simp [eraseFirst]
  | cons x xs ih =>
    simp only [eraseFirst]
    split
    · exact List.sublist_cons_self x xs
    · exact List.Sublist.cons₂ x ih

theorem nodup_eraseFirst {α : Type} [DecidableEq α] {l : List α} (d : α)
    (h : l.Nodup) : (eraseFirst l d).Nodup :=
  h.sublist (eraseFirst_sublist l d)

theorem not_mem_eraseFirst_self {α : Type} [DecidableEq α] :
    ∀ {l : List α}, l.Nodup → ∀ d : α, d ∉ eraseFirst l d := by
  intro l
  induction l with
  | nil => intro _ d; simp [eraseFirst]
  | cons x xs ih =>
    intro h d
    rcases List.nodup_cons.mp h with ⟨hx, hxs⟩
    simp only [eraseFirst]
    split
    · rename_i hxd; subst hxd; exact hx
    · rename_i hxd
      intro hmem
      rcases List.mem_cons.mp hmem with h1 | h2
      · exact hxd h1.symm
      · exact ih hxs d h2

theorem length_eraseFirst_of_mem {α : Type} [DecidableEq α] :
    ∀ {l : List α} {d : α}, d ∈ l → (eraseFirst l d).length + 1 = l.length := by
  intro l
  induction l with
  | nil => intro d h; cases h
  | cons x xs ih =>
    intro d h
    simp only [eraseFirst]
    split
    · simp
    · rename_i hxd
      have hdx : d ∈ xs := by
        rcases List.mem_cons.mp h with h1 | h2
        · exact absurd h1.symm hxd
        · exact h2
      simp [← ih hdx]

theorem eraseFirst_get_drop {α : Type} [DecidableEq α] :
    ∀ (l : List α) (k : Nat) (h : k < l.length),
      (eraseFirst l (l.get ⟨k, h⟩)).drop k = l.drop (k + 1)
  | x :: xs, 0, _ => by simp [eraseFirst]
  | x :: xs, k + 1, h => by
      have hk : k < xs.length := by simpa using h
      have hget : (x :: xs).get ⟨k + 1, h⟩ = xs.get ⟨k, hk⟩ := rfl
      rw [hget]
      simp only [eraseFirst]
      split
      · rfl
      · exact eraseFirst_get_drop xs k hk

theorem filter_eraseFirst {α : Type} [DecidableEq α] (p : α → Bool) :
    ∀ (l : List α) (d : α), p d = false →
      (eraseFirst l d).filter p = l.filter p
  | [], _, _ => rfl
  | x :: xs, d, h => by
      simp only [eraseFirst]
      split
      · rename_i hxd; subst hxd; simp [List.filter_cons, h]
      · cases hpx : p x <;>
          simp [List.filter_cons, hpx, filter_eraseFirst p xs d h]

/-! ### Characterizing one pass of the inner filter loop -/

theorem filter_kw_step_of_not_mem (d : VMRec) (inv : List VMRec)
    (p : AttrName × PyVal) (h : d ∉ inv) : filter_kw_step d inv p = inv := by
  unfold filter_kw_step
  split
  · rw [if_neg]; exact fun hc => h hc.2
  · rw [if_neg]; exact fun hc => h hc.2

theorem filter_step_of_not_mem (kw : List (AttrName × PyVal))
    (inv : List VMRec) (d : VMRec) (h : d ∉ inv) :
    filter_step kw inv d = inv := by
  induction kw with
  | nil => rfl
  | cons p rest ih =>
    show filter_step rest (filter_kw_step d inv p) d = inv
    rw [filter_kw_step_of_not_mem d inv p h]
    exact ih

theorem filter_kw_step_sat (d : VMRec) (inv : List VMRec)
    (p : AttrName × PyVal) (h : satisfies d p = true) :
    filter_kw_step d inv p = inv := by
  obtain ⟨n, v⟩ := p
  cases v <;> simp_all [filter_kw_step, satisfies]

theorem filter_kw_step_not_sat (d : VMRec) (inv : List VMRec)
    (p : AttrName × PyVal) (h : satisfies d p = false) (hm : d ∈ inv) :
    filter_kw_step d inv p = eraseFirst inv d := by
  obtain ⟨n, v⟩ := p
  cases v <;> simp_all [filter_kw_step, satisfies]

theorem filter_step_single (p : AttrName × PyVal) (inv : List VMRec)
    (d : VMRec) (hm : d ∈ inv) :
    filter_step [p] inv d = if satisfies d p then inv else eraseFirst inv d := by
  cases hs : satisfies d p
  · show filter_step [] (filter_kw_step d inv p) d = _
    rw [filter_kw_step_not_sat d inv p hs hm]
    simp [filter_step]
  · show filter_step [] (filter_kw_step d inv p) d = _
    rw [filter_kw_step_sat d inv p hs]
    simp [filter_step]

theorem filter_step_nodup (kw : List (AttrName × PyVal)) :
    ∀ (inv : List VMRec) (d : VMRec), inv.Nodup → d ∈ inv →
      filter_step kw inv d =
        if satisfiesAll kw d then inv else eraseFirst inv d := by
  induction kw with
  | nil => intro inv d _ _; simp [filter_step, satisfiesAll]
  | cons p rest ih =>
    intro inv d hnd hm
    show filter_step rest (filter_kw_step d inv p) d = _
    cases hs : satisfies d p
    · rw [filter_kw_step_not_sat d inv p hs hm]
      rw [filter_step_of_not_mem rest _ d (not_mem_eraseFirst_self hnd d)]
      have hall : satisfiesAll (p :: rest) d = false := by
        simp [satisfiesAll, hs]
      rw [hall]
      simp
    · rw [filter_kw_step_sat d inv p hs]
      rw [ih inv d hnd hm]
      have hall : satisfiesAll (p :: rest) d = satisfiesAll rest d := by
        simp [satisfiesAll, hs]
      rw [hall]

/-! ### The reversed-iterator loop computes `List.filter` -/

theorem filter_rev_loop_eq_filter (kw : List (AttrName × PyVal))
    (I : List VMRec → Prop)
    (hI : ∀ inv d, I inv → I (eraseFirst inv d))
    (hstep : ∀ inv d, I inv → d ∈ inv →
      filter_step kw inv d =
        if satisfiesAll kw d then inv else eraseFirst inv d) :
    ∀ (k : Nat) (inv : List VMRec), I inv → k ≤ inv.length →
      (∀ x ∈ inv.drop k, satisfiesAll kw x = true) →
      filter_rev_loop kw inv k = inv.filter (satisfiesAll kw) := by
  intro k
  induction k with
  | zero =>
    intro inv _ _ hpass
    simp only [filter_rev_loop]
    exact (List.filter_eq_self.mpr (by simpa using hpass)).symm
  | succ k ih =>
    intro inv hInv hlen hpass
    have hk : k < inv.length := Nat.lt_of_lt_of_le (Nat.lt_succ_self k) hlen
    simp only [filter_rev_loop, dif_pos hk]
    have hdm : inv.get ⟨k, hk⟩ ∈ inv := List.get_mem inv k hk
    rw [hstep inv (inv.get ⟨k, hk⟩) hInv hdm]
    have hdropk : inv.drop k = inv.get ⟨k, hk⟩ :: inv.drop (k + 1) :=
      List.drop_eq_get_cons hk
    cases hs : satisfiesAll kw (inv.get ⟨k, hk⟩)
    · rw [if_neg (by simp)]
      have h1 : I (eraseFirst inv (inv.get ⟨k, hk⟩)) := hI inv _ hInv
      have hlen2 : k ≤ (eraseFirst inv (inv.get ⟨k, hk⟩)).length := by
        have := length_eraseFirst_of_mem hdm
        omega
      have hdrop2 : (eraseFirst inv (inv.get ⟨k, hk⟩)).drop k = inv.drop (k + 1) :=
        eraseFirst_get_drop inv k hk
      have hpass2 : ∀ x ∈ (eraseFirst inv (inv.get ⟨k, hk⟩)).drop k,
          satisfiesAll kw x = true := by
        rw [hdrop2]
        exact hpass
      rw [ih (eraseFirst inv (inv.get ⟨k, hk⟩)) h1 hlen2 hpass2]
      exact filter_eraseFirst _ inv _ hs
    · rw [if_pos rfl]
      apply ih inv hInv (Nat.le_of_lt hk)
      intro x hx
      rw [hdropk] at hx
      rcases List.mem_cons.mp hx with h1 | h2
      · rw [h1]; exact hs
      · exact hpass x h2

/-- For a single keyword predicate, `filter_inventory` computes
`List.filter` on any collection, duplicates included. -/
theorem filter_inventory_single (p : AttrName × PyVal) (inv : List VMRec) :
    filter_inventory [p] inv = inv.filter (fun d => satisfies d p) := by
  have hcongr : inv.filter (satisfiesAll [p]) = inv.filter (fun d => satisfies d p) := by
    apply List.filter_congr
    intro x _
    simp [satisfiesAll]
  rw [← hcongr]
  unfold filter_inventory
  exact filter_rev_loop_eq_filter [p] (fun _ => True)
    (fun _ _ _ => trivial)
    (fun inv d _ hm => by
      rw [filter_step_single p inv d hm]
      have : satisfiesAll [p] d = satisfies d p := by simp [satisfiesAll]
      rw [this])
    inv.length inv trivial (Nat.le_refl _)
    (by simp [List.drop_length])

/-! ### Lemmas about the grouping dict -/

theorem optApp_assoc (o : Option (List PyVal)) (a b : List PyVal) :
    optApp (optApp o a) b = optApp o (a ++ b) := by
  cases o <;> cases a <;> cases b <;> simp [optApp]

theorem addTo_alookup :
    ∀ (data : List (PyVal × List PyVal)) (g v k : PyVal),
      alookup (addTo data g v) k =
        if k = g then optApp (alookup data k) [v] else alookup data k
  | [], g, v, k => by
      by_cases h : k = g
      · subst h; simp [addTo, alookup, optApp]
      · have h2 : ¬(g = k) := fun hh => h hh.symm
        simp [addTo, alookup, h, h2]
  | (k0, l0) :: rest, g, v, k => by
      by_cases h0 : k0 = g
      · subst h0
        by_cases hk : k0 = k
        · subst hk; simp [addTo, alookup, optApp]
        · have hk2 : ¬(k = k0) := fun hh => hk hh.symm
          simp [addTo, alookup, hk, hk2]
      · by_cases hk : k0 = k
        · subst hk
          have hkg : ¬(k0 = g) := h0
          simp [addTo, alookup, h0, hkg]
        · have hk2 : ¬(k = k0) := fun hh => hk hh.symm
          simp [addTo, alookup, h0, hk, hk2, addTo_alookup rest g v k]

theorem addTo_alookup_single (data : List (PyVal × List PyVal)) (gv v k : PyVal) :
    alookup (addTo data gv v) k =
      optApp (alookup data k)
        ((([gv] : List PyVal).filter fun g => decide (g = k)).map fun _ => v) := by
  rw [addTo_alookup]
  by_cases h : k = gv
  · subst h; simp
  · have h2 : ¬(gv = k) := fun hh => h hh.symm
    simp [h, h2, optApp]

theorem gsFold_alookup (v : PyVal) :
    ∀ (gs : List PyVal) (data : List (PyVal × List PyVal)) (k : PyVal),
      alookup (gs.foldl (fun acc g => addTo acc g v) data) k =
        optApp (alookup data k)
          ((gs.filter fun g => decide (g = k)).map fun _ => v)
  | [], data, k => by simp [optApp]
  | g :: gs, data, k => by
      simp only [List.foldl_cons]
      rw [gsFold_alookup v gs (addTo data g v) k, addTo_alookup]
      by_cases hg : k = g
      · subst hg
        simp [List.filter_cons, optApp_assoc]
      · have hg2 : ¬(g = k) := fun hh => hg hh.symm
        simp [List.filter_cons, hg, hg2]

theorem groupRecord_alookup (group field : AttrName)
    (data : List (PyVal × List PyVal)) (d : VMRec) (k : PyVal) :
    alookup (groupRecord group field data d) k =
      optApp (alookup data k) (recContrib group field d k) := by
  cases ht : (getAttr d field).truthy
  · simp [groupRecord, recContrib, contribKeys, ht, optApp]
  · cases hgv : getAttr d group with
    | list gs =>
        simp only [groupRecord, recContrib, contribKeys, ht, hgv, if_pos]
        exact gsFold_alookup _ gs data k
    | str s =>
        simp only [groupRecord, recContrib, contribKeys, ht, hgv, if_pos]
        exact addTo_alookup_single data _ _ k
    | bool b =>
        simp only [groupRecord, recContrib, contribKeys, ht, hgv, if_pos]
        exact addTo_alookup_single data _ _ k
    | none =>
        simp only [groupRecord, recContrib, contribKeys, ht, hgv, if_pos]
        exact addTo_alookup_single data _ _ k

theorem groupFold_alookup (group field : AttrName) :
    ∀ (inv : List VMRec) (data : List (PyVal × List PyVal)) (k : PyVal),
      alookup (inv.foldl (groupRecord group field) data) k =
        optApp (alookup data k) (contribs group field inv k)
  | [], data, k => by simp [contribs, optApp]
  | d :: rest, data, k => by
      simp only [List.foldl_cons, contribs]
      rw [groupFold_alookup group field rest (groupRecord group field data d) k,
          groupRecord_alookup, optApp_assoc]

theorem addTo_keys :
    ∀ (data : List (PyVal × List PyVal)) (g v : PyVal),
      keysOf (addTo data g v) = insertKey (keysOf data) g
  | [], g, v => by simp [addTo, keysOf, insertKey]
  | (k0, l0) :: rest, g, v => by
      by_cases h : k0 = g
      · subst h
        simp [addTo, keysOf, insertKey]
      · simp only [addTo, if_neg h, keysOf, List.map_cons]
        rw [show (addTo rest g v).map Prod.fst = insertKey (keysOf rest) g from
              addTo_keys rest g v]
        simp only [insertKey, keysOf]
        by_cases hm : g ∈ rest.map Prod.fst
        · have hm2 : g ∈ k0 :: rest.map Prod.fst := List.mem_cons_of_mem _ hm
          simp [hm, hm2]
        · have hg : ¬(g = k0) := fun hh => h hh.symm
          have hm2 : g ∉ k0 :: rest.map Prod.fst := by
            simp [List.mem_cons, hg, hm]
          simp [hm, hm2]

theorem gsFold_keys (v : PyVal) :
    ∀ (gs : List PyVal) (data : List (PyVal × List PyVal)),
      keysOf (gs.foldl (fun acc g => addTo acc g v) data) =
        gs.foldl insertKey (keysOf data)
  | [], _ => rfl
  | g :: gs, data => by
      simp only [List.foldl_cons]
      rw [gsFold_keys v gs (addTo data g v), addTo_keys]

theorem groupRecord_keys (group field : AttrName)
    (data : List (PyVal × List PyVal)) (d : VMRec) :
    keysOf (groupRecord group field data d) =
      (contribKeys group field d).foldl insertKey (keysOf data) := by
  cases ht : (getAttr d field).truthy
  · simp [groupRecord, contribKeys, ht]
  · cases hgv : getAttr d group with
    | list gs =>
        simp only [groupRecord, contribKeys, ht, hgv, if_pos]
        exact gsFold_keys _ gs data
    | str s =>
        simp only [groupRecord, contribKeys, ht, hgv, if_pos, List.foldl_cons,
          List.foldl_nil]
        exact addTo_keys data _ _
    | bool b =>
        simp only [groupRecord, contribKeys, ht, hgv, if_pos, List.foldl_cons,
          List.foldl_nil]
        exact addTo_keys data _ _
    | none =>
        simp only [groupRecord, contribKeys, ht, hgv, if_pos, List.foldl_cons,
          List.foldl_nil]
        exact addTo_keys data _ _

theorem groupFold_keys (group field : AttrName) :
    ∀ (inv : List VMRec) (data : List (PyVal × List PyVal)),
      keysOf (inv.foldl (groupRecord group field) data) =
        (allGroupKeys group field inv).foldl insertKey (keysOf data)
  | [], _ => rfl
  | d :: rest, data => by
      simp only [List.foldl_cons, allGroupKeys, List.foldl_append]
      rw [groupFold_keys group field rest (groupRecord group field data d),
          groupRecord_keys]

theorem groupFold_filter_truthy (group field : AttrName) :
    ∀ (inv : List VMRec) (data : List (PyVal × List PyVal)),
      ((inv.filter fun d => (getAttr d field).truthy).foldl
          (groupRecord group field) data) =
        inv.foldl (groupRecord group field) data
  | [], _ => rfl
  | d :: rest, data => by
      cases ht : (getAttr d field).truthy
      · have hskip : groupRecord group field data d = data := by
          simp [groupRecord, ht]
        simp only [List.filter_cons, ht, Bool.false_eq_true, if_false,
          List.foldl_cons, hskip]
        exact groupFold_filter_truthy group field rest data
      · simp only [List.filter_cons, ht, if_true, List.foldl_cons]
        exact groupFold_filter_truthy group field rest _

theorem addTo_vals_ne_nil :
    ∀ (data : List (PyVal × List PyVal)) (g v : PyVal),
      (∀ p ∈ data, p.2 ≠ ([] : List PyVal)) →
      ∀ p ∈ addTo data g v, p.2 ≠ ([] : List PyVal)
  | [], g, v, _ => by simp [addTo]
  | (k0, l0) :: rest, g, v, h => by
      intro p hp
      by_cases hk : k0 = g
      · subst hk
        simp only [addTo, if_pos rfl] at hp
        rcases List.mem_cons.mp hp with h1 | h2
        · subst h1; simp
        · exact h p (List.mem_cons_of_mem _ h2)
      · simp only [addTo, if_neg hk] at hp
        rcases List.mem_cons.mp hp with h1 | h2
        · subst h1; exact h _ (List.mem_cons_self _ _)
        · exact addTo_vals_ne_nil rest g v
            (fun q hq => h q (List.mem_cons_of_mem _ hq)) p h2

theorem gsFold_vals_ne_nil (v : PyVal) :
    ∀ (gs : List PyVal) (data : List (PyVal × List PyVal)),
      (∀ p ∈ data, p.2 ≠ ([] : List PyVal)) →
      ∀ p ∈ gs.foldl (fun acc g => addTo acc g v) data, p.2 ≠ ([] : List PyVal)
  | [], _, h => h
  | g :: gs, data, h => by
      simp only [List.foldl_cons]
      exact gsFold_vals_ne_nil v gs (addTo data g v) (addTo_vals_ne_nil data g v h)

theorem groupRecord_vals_ne_nil (group field : AttrName)
    (data : List (PyVal × List PyVal)) (d : VMRec)
    (h : ∀ p ∈ data, p.2 ≠ ([] : List PyVal)) :
    ∀ p ∈ groupRecord group field data d, p.2 ≠ ([] : List PyVal) := by
  cases ht : (getAttr d field).truthy
  · simpa [groupRecord, ht] using h
  · cases hgv : getAttr d group with
    | list gs =>
        simp only [groupRecord, ht, hgv, if_pos]
        exact gsFold_vals_ne_nil _ gs data h
    | str s =>
        simp only [groupRecord, ht, hgv, if_pos]
        exact addTo_vals_ne_nil data _ _ h
    | bool b =>
        simp only [groupRecord, ht, hgv, if_pos]
        exact addTo_vals_ne_nil data _ _ h
    | none =>
        simp only [groupRecord, ht, hgv, if_pos]
        exact addTo_vals_ne_nil data _ _ h

theorem groupFold_vals_ne_nil (group field : AttrName) :
    ∀ (inv : List VMRec) (data : List (PyVal × List PyVal)),
      (∀ p ∈ data, p.2 ≠ ([] : List PyVal)) →
      ∀ p ∈ inv.foldl (groupRecord group field) data, p.2 ≠ ([] : List PyVal)
  | [], _, h => h
  | d :: rest, data, h => by
      simp only [List.foldl_cons]
      exact groupFold_vals_ne_nil group field rest _
        (groupRecord_vals_ne_nil group field data d h)

/-! ### Lemmas about `dictSet` and key uniqueness -/

theorem insertKey_nodup (ks : List PyVal) (g : PyVal) (h : ks.Nodup) :
    (insertKey ks g).Nodup := by
  unfold insertKey
  split
  · exact h
  · rename_i hg
    simp [List.nodup_append, h, hg]

theorem foldl_insertKey_nodup :
    ∀ (gs acc : List PyVal), acc.Nodup → (gs.foldl insertKey acc).Nodup
  | [], acc, h => h
  | g :: gs, acc, h => by
      simp only [List.foldl_cons]
      exact foldl_insertKey_nodup gs (insertKey acc g) (insertKey_nodup acc g h)

theorem grouped_inventory_keys_nodup (inv : List VMRec) (group field : AttrName) :
    (keysOf (grouped_inventory inv group field)).Nodup := by
  unfold grouped_inventory
  rw [groupFold_keys]
  exact foldl_insertKey_nodup _ _ (by simp [keysOf])

theorem alookup_dictSet_self :
    ∀ (data : List (PyVal × Out)) (k : PyVal) (v : Out),
      alookup (dictSet data k v) k = some v
  | [], k, v => by simp [dictSet, alookup]
  | (k0, v0) :: rest, k, v => by
      by_cases h : k0 = k
      · subst h; simp [dictSet, alookup]
      · simp [dictSet, alookup, h, alookup_dictSet_self rest k v]

theorem filter_key_nil :
    ∀ (data : List (PyVal × Out)) (k : PyVal), k ∉ keysOf data →
      data.filter (fun p => decide (p.1 = k)) = []
  | [], _, _ => rfl
  | (k0, v0) :: rest, k, h => by
      have h1 : ¬(k0 = k) := by
        intro hh
        exact h (by simp [keysOf, hh])
      have h2 : k ∉ keysOf rest := fun hh => h (by simp [keysOf] at hh ⊢; tauto)
      simp [List.filter_cons, h1, filter_key_nil rest k h2]

theorem dictSet_filter_key :
    ∀ (data : List (PyVal × Out)) (k : PyVal) (v : Out), (keysOf data).Nodup →
      (dictSet data k v).filter (fun p => decide (p.1 = k)) = [(k, v)]
  | [], k, v, _ => by simp [dictSet, List.filter_cons]
  | (k0, v0) :: rest, k, v, h => by
      have hns : (keysOf rest).Nodup := (List.nodup_cons.mp h).2
      have hnm : k0 ∉ keysOf rest := (List.nodup_cons.mp h).1
      by_cases hk : k0 = k
      · subst hk
        simp [dictSet, List.filter_cons, filter_key_nil rest k0 hnm]
      · simp [dictSet, List.filter_cons, hk, dictSet_filter_key rest k v hns]

/-- Any successful run of the stale/missing-cache branch ran the fetch
pipeline and persisted its result with mtime `now`. -/
theorem stale_refresh_ok (now : Int) (raw : List RawVM)
    (kw : List (AttrName × PyVal)) (cpt : Bool) (mk : MkdirOutcome) (fs : FS)
    (r : RunResult) (h : stale_refresh now raw kw cpt mk fs = Except.ok r) :
    r.fetched = true ∧ r.data = list_inventory raw kw ∧
      r.fs.cache = some ⟨now, some (list_inventory raw kw)⟩ := by
  cases cpt <;> cases hpe : fs.parentExists <;> cases mk <;>
    simp [stale_refresh, save_run, list_and_save, hpe] at h <;> simp [← h]

/-! ### The claims -/

/-- C1 (counterexample): with the template predicate given as the
Python boolean False — exactly as the claim writes the filter — the
scalar comparison `str(record value) != False` is true for every
record, so the whole collection is filtered away and the pipeline
yields only the meta key, not the claimed document. -/
theorem list_inventory_scenario_bool_counterexample :
    list_inventory [rawWeb1, rawWeb2, rawTmpl1] kwScenarioBool = docMeta ∧
      docMeta ≠ expectedScenarioDoc := by
  constructor
  · rfl
  · decide

/-- C1 (amended): with the template predicate as the string False, the
form the configuration parser produces, the end-to-end scenario yields
exactly the claimed document, groups in first-encounter order, group
members in input order, tmpl1 excluded by the template filter. -/
theorem list_inventory_scenario :
    list_inventory [rawWeb1, rawWeb2, rawTmpl1] kwScenarioStr =
      expectedScenarioDoc := by
  rfl

/-- C2 (counterexample): with duplicate records, iterating the
collection in reverse while removing can remove two list entries during
one iterator step, after which the reversed iterator index falls outside
the shrunken list and iteration stops early: in `[recDupA, recDupB,
recDupB]` both copies of recDupB are removed while the iterator is on
the last copy, recDupA is never evaluated, and it survives although it
fails the guest_id predicate. -/
theorem filter_inventory_duplicates_counterexample :
    filter_inventory kwDup [recDupA, recDupB, recDupB] = [recDupA] ∧
      satisfiesAll kwDup recDupA = false := by
  constructor
  · rfl
  · rfl

/-- C2 (amended): for every collection of pairwise-distinct records and
every filter mapping over record attributes, the surviving records are
exactly those that satisfy every predicate — membership in the list for
a list-valued predicate, Python string-coerced equality for a scalar
predicate — each record being removed iff it fails some predicate. -/
theorem filter_inventory_exact_of_nodup (kw : List (AttrName × PyVal))
    (inv : List VMRec) (h : inv.Nodup) :
    filter_inventory kw inv = inv.filter (satisfiesAll kw) := by
  unfold filter_inventory
  exact filter_rev_loop_eq_filter kw List.Nodup
    (fun inv d hI => nodup_eraseFirst d hI)
    (fun inv d hnd hm => filter_step_nodup kw inv d hnd hm)
    inv.length inv h (Nat.le_refl _)
    (by simp [List.drop_length])

/-- C2 witness: the amended theorem applied to a concrete two-record
collection without duplicates; recDupA fails the membership predicate,
recDupB fails both, and both are removed. -/
theorem filter_inventory_exact_of_nodup_witness :
    filter_inventory kwDup [recDupA, recDupB] =
      List.filter (satisfiesAll kwDup) [recDupA, recDupB] ∧
    filter_inventory kwDup [recDupA, recDupB] = [] := by
  constructor
  · exact filter_inventory_exact_of_nodup kwDup [recDupA, recDupB] (by decide)
  · rfl

/-- C3 (counterexample): filtering a mixed template/non-template pair
with the scalar predicate template = Python boolean False removes both
records, including the one whose string-coerced template value is the
string False, because `str(False) != False` holds in Python between a
string and a boolean. -/
theorem filter_template_bool_counterexample :
    filter_inventory [(AttrName.template, PyVal.bool false)]
        [recNonTemplate, recTemplate] = [] ∧
      pyStr (getAttr recNonTemplate AttrName.template) = "False" := by
  constructor
  · rfl
  · rfl

/-- C3 (amended): with the template predicate as the string False (the
form the configuration parser produces), filtering removes exactly the
records whose string-coerced template value differs from the string
False and retains all the others, on every collection. -/
theorem filter_template_string_false (inv : List VMRec) :
    filter_inventory [(AttrName.template, PyVal.str "False")] inv =
      inv.filter fun d =>
        decide (pyStr (getAttr d AttrName.template) = "False") := by
  rw [filter_inventory_single]
  apply List.filter_congr
  intro x _
  simp [satisfies, PyVal.str.injEq]

/-- C4 (counterexample): a raw VM whose guest hostname attribute is
present but empty and whose display name is non-empty yields no record:
`getattr` falls back to the display name only when the attribute is
absent, so the resolved name is the empty hostname and the record is
dropped, while the claim would resolve the name to web1 and append one
record. -/
theorem append_vm_info_empty_hostname_counterexample :
    append_vm_info [] rawEmptyHostname = [] ∧
      rawEmptyHostname.guestHostNameAttr = some (PyVal.str "") ∧
      rawEmptyHostname.displayName.truthy = true := by
  refine ⟨rfl, rfl, rfl⟩

/-- C4 (amended): the record name is the guest hostname attribute when
that attribute is present — whatever its value — and the display name
only when it is absent; exactly one record is appended iff the resolved
name is truthy, and the collection is unchanged otherwise. -/
theorem append_vm_info_name_resolution (inv : List VMRec) (vm : RawVM) :
    ((resolvedName vm).truthy = false → append_vm_info inv vm = inv) ∧
    ((resolvedName vm).truthy = true →
      ∃ r : VMRec, append_vm_info inv vm = inv ++ [r] ∧
        r.name = resolvedName vm) := by
  have hres : vm.guestHostNameAttr.getD vm.displayName = resolvedName vm := by
    rcases hh : vm.guestHostNameAttr with _ | v <;> simp [resolvedName, hh]
  constructor
  · intro h
    simp [append_vm_info, hres, h]
  · intro h
    refine ⟨⟨resolvedName vm,
      vm.guestGuestIdAttr.getD (vm.configGuestIdAttr.getD PyVal.none),
      vm.guestFullNameAttr.getD vm.configGuestFullName,
      PyVal.list (vm.devices.filterMap fun dev =>
        if dev.isEthernetCard && dev.connected then
          some (PyVal.str dev.deviceName)
        else Option.none),
      vm.powerState, vm.configInstanceUuid, PyVal.bool vm.configTemplate,
      vm.guestIpAddressAttr.getD PyVal.none⟩, ?_, rfl⟩
    simp [append_vm_info, hres, h]

/-- C4 witness: the amended theorem applied to rawWeb1, whose hostname
attribute is absent; the resolved name is the display name web1 and one
record carrying it is appended. -/
theorem append_vm_info_name_resolution_witness :
    ∃ r : VMRec, append_vm_info [] rawWeb1 = [] ++ [r] ∧
      r.name = resolvedName rawWeb1 :=
  (append_vm_info_name_resolution [] rawWeb1).2 rfl

/-- C5: grouping skips exactly the records whose field value is falsy;
looking any key up in the result returns the field values contributed in
record order — once per occurrence of the key among the elements of a
list-valued group attribute, once for an equal scalar group attribute,
never deduplicated, and absent when nothing contributes — and the group
keys appear in first-encounter order. -/
theorem grouped_inventory_spec (inv : List VMRec) (group field : AttrName) :
    grouped_inventory (inv.filter fun d => (getAttr d field).truthy)
        group field = grouped_inventory inv group field ∧
    (∀ k, alookup (grouped_inventory inv group field) k =
      optApp Option.none (contribs group field inv k)) ∧
    keysOf (grouped_inventory inv group field) =
      (allGroupKeys group field inv).foldl insertKey [] := by
  refine ⟨?_, ?_, ?_⟩
  · exact groupFold_filter_truthy group field inv []
  · intro k
    exact groupFold_alookup group field inv [] k
  · exact groupFold_keys group field inv []

/-- C8: the document built by `list_inventory` maps the key _meta to
exactly the meta object, and the only entry whose key is _meta is that
one — a grouping-produced _meta group is overwritten in place and its
list is absent from the output. -/
theorem list_inventory_meta (raw : List RawVM) (kw : List (AttrName × PyVal)) :
    alookup (list_inventory raw kw) (PyVal.str "_meta") = some Out.meta ∧
    (list_inventory raw kw).filter
        (fun p => decide (p.1 = PyVal.str "_meta")) =
      [(PyVal.str "_meta", Out.meta)] := by
  constructor
  · exact alookup_dictSet_self _ _ _
  · apply dictSet_filter_key
    have hkeys :
        keysOf ((grouped_inventory
            (filter_inventory kw (List.foldl append_vm_info [] raw))
            AttrName.net AttrName.name).map fun p => (p.1, Out.hosts p.2)) =
          keysOf (grouped_inventory
            (filter_inventory kw (List.foldl append_vm_info [] raw))
            AttrName.net AttrName.name) := by
      simp [keysOf, List.map_map]
    rw [hkeys]
    exact grouped_inventory_keys_nodup _ _ _

/-- C9: every group in the mapping returned by `grouped_inventory` is a
non-empty list — keys are only created together with their first element
and lists only grow. -/
theorem grouped_inventory_no_empty_group (inv : List VMRec)
    (group field : AttrName) :
    (grouped_inventory inv group field).all (fun p => !p.2.isEmpty) = true := by
  rw [List.all_eq_true]
  intro p hp
  cases hq : p.2 with
  | nil => exact absurd hq (groupFold_vals_ne_nil group field inv [] (by simp) p hp)
  | cons a l => rfl

/-- C6: the cache freshness state machine — forced refresh always runs
the pipeline and, whenever the write can happen at all (truthy path,
existing parent directory), overwrites the cache whatever the file
freshness; when the write cannot happen the uncaught open error
escapes, the fatal path the spec describes; a non-forced call on a
fresh parseable cache returns its content without running the pipeline
and changes nothing; otherwise any completed non-forced call ran the
pipeline and persisted the result with mtime now. -/
theorem cached_inventory_state_machine (now ttl : Int) (raw : List RawVM)
    (kw : List (AttrName × PyVal)) (cpt : Bool) (mk : MkdirOutcome) (fs : FS) :
    ((cpt && fs.parentExists) = true →
      ∃ r : RunResult,
        cached_inventory now ttl raw kw cpt mk true fs = Except.ok r ∧
        r.data = list_inventory raw kw ∧ r.fetched = true ∧
        r.mkdirCalled = false ∧
        r.fs.cache = some ⟨now, some (list_inventory raw kw)⟩) ∧
    ((cpt && fs.parentExists) = false →
      cached_inventory now ttl raw kw cpt mk true fs =
        Except.error CacheErr.openFail) ∧
    (∀ cf doc, fs.cache = some cf → cf.content = some doc →
      cacheFresh now ttl cpt fs = true →
      cached_inventory now ttl raw kw cpt mk false fs =
        Except.ok ⟨doc, fs, false, false⟩) ∧
    (cacheFresh now ttl cpt fs = false →
      ∀ r, cached_inventory now ttl raw kw cpt mk false fs = Except.ok r →
        r.fetched = true ∧ r.data = list_inventory raw kw ∧
          r.fs.cache = some ⟨now, some (list_inventory raw kw)⟩) := by
  refine ⟨?_, ?_, ?_, ?_⟩
  · intro h
    refine ⟨⟨list_inventory raw kw,
      ⟨some ⟨now, some (list_inventory raw kw)⟩, true, fun _ => rfl⟩,
      true, false⟩, ?_, rfl, rfl, rfl, rfl⟩
    simp [cached_inventory, save_run, list_and_save, h]
  · intro h
    simp [cached_inventory, save_run, list_and_save, h]
  · intro cf doc hcf hdoc hfresh
    have hfr : (cpt && decide (now - cf.mtime < ttl)) = true := by
      simpa [cacheFresh, hcf] using hfresh
    simp [cached_inventory, hcf, hfr, hdoc]
  · intro hstale r hok
    rcases hcf : fs.cache with _ | cf
    · simp only [cached_inventory, hcf] at hok
      simp at hok
      exact stale_refresh_ok now raw kw cpt mk fs r hok
    · have hfr : (cpt && decide (now - cf.mtime < ttl)) = false := by
        simpa [cacheFresh, hcf] using hstale
      simp only [cached_inventory, hcf] at hok
      simp [hfr] at hok
      exact stale_refresh_ok now raw kw cpt mk fs r hok

/-- C6 witness: the state machine applied at a concrete fresh, parseable
cache (mtime 90, now 100, ttl 3600); the cached document is returned
with no fetch. -/
theorem cached_inventory_state_machine_witness :
    cached_inventory 100 3600 [] [] true MkdirOutcome.ok false fsFreshParsed =
      Except.ok ⟨docMeta, fsFreshParsed, false, false⟩ :=
  (cached_inventory_state_machine 100 3600 [] [] true MkdirOutcome.ok
      fsFreshParsed).2.2.1 ⟨90, some docMeta⟩ docMeta rfl rfl (by decide)

/-- C7: on a fresh-cache hit whose content fails to parse, the call
recovers locally: `list_and_save` runs the full fetch-persist cycle —
the write genuinely succeeds, since the existing cache file guarantees
its parent directory exists — and its result is returned; no error is
surfaced. -/
theorem cached_inventory_parse_failure_recovery (now ttl : Int)
    (raw : List RawVM) (kw : List (AttrName × PyVal)) (mk : MkdirOutcome)
    (fs : FS) (cf : CacheFile) (hcf : fs.cache = some cf)
    (hbad : cf.content = Option.none)
    (hfresh : cacheFresh now ttl true fs = true) :
    ∃ p : List (PyVal × Out) × FS,
      list_and_save now raw kw true fs = Except.ok p ∧
      cached_inventory now ttl raw kw true mk false fs =
        Except.ok ⟨p.1, p.2, true, false⟩ := by
  have hpe : fs.parentExists = true := fs.wf (by simp [hcf])
  have hfr : (true && decide (now - cf.mtime < ttl)) = true := by
    simpa [cacheFresh, hcf] using hfresh
  refine ⟨(list_inventory raw kw,
    ⟨some ⟨now, some (list_inventory raw kw)⟩, true, fun _ => rfl⟩), ?_, ?_⟩
  · simp [list_and_save, hpe]
  · simp [cached_inventory, save_run, list_and_save, hcf, hfr, hbad, hpe]

/-- C7 witness: recovery applied at a concrete fresh but corrupt cache
file (content unparseable); the write succeeds and the fetch-persist
result is returned. -/
theorem cached_inventory_parse_failure_recovery_witness :
    ∃ p : List (PyVal × Out) × FS,
      list_and_save 100 [] [] true fsFreshCorrupt = Except.ok p ∧
      cached_inventory 100 3600 [] [] true MkdirOutcome.ok false
          fsFreshCorrupt = Except.ok ⟨p.1, p.2, true, false⟩ :=
  cached_inventory_parse_failure_recovery 100 3600 [] [] MkdirOutcome.ok
    fsFreshCorrupt ⟨90, Option.none⟩ rfl rfl (by decide)

/-- C10: with refresh true the call is exactly `list_and_save` — it
neither reads the cache file nor its mtime nor calls makedirs — so two
runs over file states differing only in existence, age or contents of
the cache file have the same outcome: the same document when the write
can happen, the same uncaught open error when it cannot; a completed
run never called makedirs and left the parent directory as it was. -/
theorem cached_inventory_refresh_independent (now ttl : Int)
    (raw : List RawVM) (kw : List (AttrName × PyVal)) (cpt : Bool)
    (mk : MkdirOutcome) (fs fs2 : FS)
    (hpar : fs.parentExists = fs2.parentExists) :
    (cached_inventory now ttl raw kw cpt mk true fs =
      (match list_and_save now raw kw cpt fs with
       | Except.ok p => Except.ok ⟨p.1, p.2, true, false⟩
       | Except.error e => Except.error e)) ∧
    Except.map RunResult.data (cached_inventory now ttl raw kw cpt mk true fs) =
      Except.map RunResult.data
        (cached_inventory now ttl raw kw cpt mk true fs2) ∧
    (∀ r, cached_inventory now ttl raw kw cpt mk true fs = Except.ok r →
      r.fetched = true ∧ r.mkdirCalled = false ∧
        r.fs.parentExists = fs.parentExists) ∧
    (∀ r2, cached_inventory now ttl raw kw cpt mk true fs2 = Except.ok r2 →
      r2.fetched = true ∧ r2.mkdirCalled = false ∧
        r2.fs.parentExists = fs2.parentExists) := by
  have hpe2 : fs2.parentExists = fs.parentExists := hpar.symm
  refine ⟨rfl, ?_, ?_, ?_⟩
  · cases hcpt : cpt <;> cases hpe : fs.parentExists <;>
      simp [cached_inventory, save_run, list_and_save, hpe, hpe2, hcpt,
        Except.map]
  · intro r h
    cases hcpt : cpt <;> cases hpe : fs.parentExists <;>
      simp [cached_inventory, save_run, list_and_save, hpe, hcpt] at h <;>
      simp [← h, hpe]
  · intro r2 h
    cases hcpt : cpt <;> cases hpe : fs2.parentExists <;>
      simp [cached_inventory, save_run, list_and_save, hpe, hcpt] at h <;>
      simp [← h, hpe]

/-- C10 witness: the refresh-independence theorem at two concrete file
states sharing an existing parent directory, one with no cache file and
one with a stale corrupt cache file; the returned documents agree and
makedirs is not called. -/
theorem cached_inventory_refresh_independent_witness :
    Except.map RunResult.data
        (cached_inventory 0 0 [] [] true MkdirOutcome.otherErr true
          fsNoCache) =
      Except.map RunResult.data
        (cached_inventory 0 0 [] [] true MkdirOutcome.otherErr true
          fsStaleCorrupt) ∧
    (∀ r, cached_inventory 0 0 [] [] true MkdirOutcome.otherErr true
        fsNoCache = Except.ok r →
      r.fetched = true ∧ r.mkdirCalled = false ∧
        r.fs.parentExists = fsNoCache.parentExists) :=
  ⟨(cached_inventory_refresh_independent 0 0 [] [] true MkdirOutcome.otherErr
      fsNoCache fsStaleCorrupt rfl).2.1,
   (cached_inventory_refresh_independent 0 0 [] [] true MkdirOutcome.otherErr
      fsNoCache fsStaleCorrupt rfl).2.2.1⟩
